import Mathlib

/-!
Shallow embedding of the options / technical-analysis / statistics modules of the
quant-finance-pipeline repository (src/options_analysis.py, src/technical_analysis.py,
src/stats_analysis.py).

Numeric values are modelled by rationals.  The transcendental library functions that the
Python code calls (numpy exp, numpy log, numpy sqrt, scipy.stats.norm.cdf) are passed as
explicit function parameters `e l s Φ : ℚ → ℚ`, so every definition is computable and the
theorems quantify over the properties of those library functions that they need.
Pandas NaN values are modelled by `Option ℚ` with `none` standing for NaN.
-/

namespace QuantPipeline

/-- Option side selector, modelling the `option_type` string argument
(`'call'` versus anything else, which the code treats as a put). -/
inductive OptionSide
  | call
  | put
deriving DecidableEq, Repr

open OptionSide

/-- Embedding of `OptionsAnalyzer._bs_price(S, K, T, r, sigma, option_type)`.
`e`, `l`, `s`, `Φ` stand for `np.exp`, `np.log`, `np.sqrt`, `scipy.stats.norm.cdf`.
The branch structure mirrors the source: `T <= 0` returns the raw intrinsic payoff,
`sigma <= 0` returns the discounted-strike intrinsic value, and otherwise the
call branch is `S*Φ(d1) - K*exp(-r*T)*Φ(d2)` while the put branch is
`K*exp(-r*T)*Φ(-d2) - S*Φ(-d2)` exactly as written in the source. -/
def bs_price (e l s Φ : ℚ → ℚ) (S K T r sigma : ℚ) (ot : OptionSide) : ℚ :=
  if T ≤ 0 then
    (if ot = call then max 0 (S - K) else max 0 (K - S))
  else if sigma ≤ 0 then
    (if ot = call then max 0 (S - K * e (-(r * T))) else max 0 (K * e (-(r * T)) - S))
  else
    let d1 := (l (S / K) + (r + sigma ^ 2 / 2) * T) / (sigma * s T)
    let d2 := d1 - sigma * s T
    if ot = call then
      S * Φ d1 - K * e (-(r * T)) * Φ d2
    else
      K * e (-(r * T)) * Φ (-d2) - S * Φ (-d2)

/-- The standard (established-library) Black-Scholes European put price
`K*exp(-r*T)*Φ(-d2) - S*Φ(-d1)` that the specification describes, with the same
`d1`, `d2` as `bs_price`.  This follows the spec wording and is the reference against
which the put branch of `bs_price` is compared. -/
def bs_put_std (e l s Φ : ℚ → ℚ) (S K T r sigma : ℚ) : ℚ :=
  let d1 := (l (S / K) + (r + sigma ^ 2 / 2) * T) / (sigma * s T)
  let d2 := d1 - sigma * s T
  K * e (-(r * T)) * Φ (-d2) - S * Φ (-d1)

/-- Intrinsic value of an option, as computed inside
`OptionsAnalyzer.implied_volatility_from_price`:
`max(0, S - K)` for a call and `max(0, K - S)` otherwise. -/
def intrinsic_value (S K : ℚ) (ot : OptionSide) : ℚ :=
  if ot = call then max 0 (S - K) else max 0 (K - S)

/-- The local `objective` function of `implied_volatility_from_price`:
Black-Scholes price at volatility `sig` minus the market price. -/
def iv_objective (e l s Φ : ℚ → ℚ) (S K T r p : ℚ) (ot : OptionSide) (sig : ℚ) : ℚ :=
  bs_price e l s Φ S K T r sig ot - p

/-- Model of `scipy.optimize.brentq(objective, low, high, xtol=tol, maxiter=max_iter)` as
the bisection-style bracketing root finder the specification describes: an exact zero at
an endpoint is returned immediately, a bracket of width at most `tol` returns its
midpoint, and otherwise the half-bracket on which the sign still changes is recursed
into; exhausting `max_iter` iterations models the non-convergence exception (which the
caller turns into NaN). -/
def bisect (f : ℚ → ℚ) (tol : ℚ) : ℚ → ℚ → ℕ → Option ℚ
  | _, _, 0 => none
  | a, b, n + 1 =>
    if f a = 0 then some a
    else if f b = 0 then some b
    else if b - a ≤ tol then some ((a + b) / 2)
    else if f a * f ((a + b) / 2) < 0 then bisect f tol a ((a + b) / 2) n
    else bisect f tol ((a + b) / 2) b n

/-- Embedding of `OptionsAnalyzer.implied_volatility_from_price`, parametric in the root
finder `rf` so that the guard clauses can be shown to return NaN without invoking it.
`market_price = none` models a NaN market price.  The guards, the bracket
`[1e-6, 5.0]`, the `1e-12` intrinsic cushion and the same-sign check mirror the source. -/
def implied_volatility_from_price_gen
    (rf : (ℚ → ℚ) → ℚ → ℚ → Option ℚ)
    (e l s Φ : ℚ → ℚ) (market_price : Option ℚ) (S K T r : ℚ) (ot : OptionSide) :
    Option ℚ :=
  match market_price with
  | none => none
  | some p =>
    if p ≤ 0 then none
    else if p ≤ intrinsic_value S K ot + 1 / 1000000000000 then none
    else
      if iv_objective e l s Φ S K T r p ot (1 / 1000000) *
          iv_objective e l s Φ S K T r p ot 5 > 0 then none
      else rf (iv_objective e l s Φ S K T r p ot) (1 / 1000000) 5

/-- Embedding of `OptionsAnalyzer.implied_volatility_from_price` with `brentq` modelled
by `bisect` with tolerance `tol` and iteration budget `max_iter`. -/
def implied_volatility_from_price
    (e l s Φ : ℚ → ℚ) (market_price : Option ℚ) (S K T r : ℚ) (ot : OptionSide)
    (tol : ℚ) (max_iter : ℕ) : Option ℚ :=
  implied_volatility_from_price_gen (fun g lo hi => bisect g tol lo hi max_iter)
    e l s Φ market_price S K T r ot

/-- C1.  At spot S = 1, strike K = 1, T = 1, r = 0, sigma = 1, for every quadruple of
library functions with `exp 0 = 1`, `log 1 = 0`, `sqrt 1 = 1` and a strictly monotone
normal CDF, the put branch of `_bs_price` returns 0 while the standard Black-Scholes
put price is strictly positive: the code computes `K*exp(-r*T)*Φ(-d2) - S*Φ(-d2)`
instead of `K*exp(-r*T)*Φ(-d2) - S*Φ(-d1)`. -/
theorem bs_price_put_branch_diverges_from_standard
    (e l s Φ : ℚ → ℚ) (he : e 0 = 1) (hl : l 1 = 0) (hs : s 1 = 1)
    (hΦ : StrictMono Φ) :
    bs_price e l s Φ 1 1 1 0 1 put = 0 ∧ 0 < bs_put_std e l s Φ 1 1 1 0 1 := by
  have h0 : (-(0 * 1) : ℚ) = 0 := by norm_num
  have h11 : ((1 : ℚ) / 1) = 1 := by norm_num
  constructor
  · simp only [bs_price, bs_put_std, h0, h11, he, hl, hs]
    norm_num
    intro h
    exact absurd h (by decide)
  · simp only [bs_price, bs_put_std, h0, h11, he, hl, hs]
    norm_num
    have : Φ (-(1 / 2)) < Φ (2⁻¹) := hΦ (by norm_num)
    linarith

/-- Witness for C1 at the concrete library functions
`e = fun _ => 1`, `l = fun _ => 0`, `s = fun _ => 1`, `Φ = id`. -/
theorem bs_price_put_branch_diverges_from_standard_witness :
    bs_price (fun _ => 1) (fun _ => 0) (fun _ => 1) id 1 1 1 0 1 put = 0 ∧
      0 < bs_put_std (fun _ => 1) (fun _ => 0) (fun _ => 1) id 1 1 1 0 1 :=
  bs_price_put_branch_diverges_from_standard
    (fun _ => 1) (fun _ => 0) (fun _ => 1) id rfl rfl rfl strictMono_id

/-- C4.  For every non-positive time to expiry `T ≤ 0` the price is the undiscounted
intrinsic payoff `max 0 (S - K)` for a call and `max 0 (K - S)` otherwise, for all
library functions and independently of `r` and `sigma`. -/
theorem bs_price_expired_is_intrinsic
    (e l s Φ : ℚ → ℚ) (S K T r sigma : ℚ) (ot : OptionSide) (hT : T ≤ 0) :
    bs_price e l s Φ S K T r sigma ot =
      if ot = call then max 0 (S - K) else max 0 (K - S) := by
  simp [bs_price, hT]

/-- Witness for C4 at T = -1, S = 3, K = 2. -/
theorem bs_price_expired_is_intrinsic_witness :
    (-1 : ℚ) ≤ 0 ∧
      bs_price (fun _ => 1) (fun _ => 0) (fun _ => 1) id 3 2 (-1) 5 7 call =
        (if call = call then max 0 ((3 : ℚ) - 2) else max 0 ((2 : ℚ) - 3)) :=
  ⟨by norm_num,
    bs_price_expired_is_intrinsic (fun _ => 1) (fun _ => 0) (fun _ => 1) id 3 2 (-1) 5 7 call
      (by norm_num)⟩

/-- C5.  For every positive time to expiry and non-positive volatility the price is the
discounted-strike intrinsic value `max 0 (S - K*exp(-r*T))` for a call and
`max 0 (K*exp(-r*T) - S)` otherwise. -/
theorem bs_price_zero_vol_is_discounted_intrinsic
    (e l s Φ : ℚ → ℚ) (S K T r sigma : ℚ) (ot : OptionSide)
    (hT : 0 < T) (hsig : sigma ≤ 0) :
    bs_price e l s Φ S K T r sigma ot =
      if ot = call then max 0 (S - K * e (-(r * T))) else max 0 (K * e (-(r * T)) - S) := by
  simp [bs_price, not_le.mpr hT, hsig]

/-- Witness for C5 at T = 1, sigma = 0, r = 0, with `e = fun _ => 1`. -/
theorem bs_price_zero_vol_is_discounted_intrinsic_witness :
    (0 : ℚ) < 1 ∧ (0 : ℚ) ≤ 0 ∧
      bs_price (fun _ => 1) (fun _ => 0) (fun _ => 1) id 3 2 1 0 0 put =
        (if put = call then max 0 ((3 : ℚ) - 2 * 1) else max 0 ((2 : ℚ) * 1 - 3)) :=
  ⟨by norm_num, by norm_num,
    bs_price_zero_vol_is_discounted_intrinsic (fun _ => 1) (fun _ => 0) (fun _ => 1) id
      3 2 1 0 0 put (by norm_num) (by norm_num)⟩

/-- Main loop of TA-Lib's `TA_SMA`, which `TechnicalIndicators.compute_sma` calls as
`ta.SMA(data["Close"], timeperiod=window)`: a running period total is advanced over the
series (`periodTotal += inReal[i]; out = periodTotal/period; periodTotal -=
inReal[trailingIdx++]`).  The first list argument is the series from the trailing index
on, the second the series from the current index on. -/
def taSMA_loop (w : ℕ) : ℚ → List ℚ → List ℚ → List ℚ
  | _, _, [] => []
  | _, [], _ :: _ => []
  | total, t :: ts, c :: cs => ((total + c) / (w : ℚ)) :: taSMA_loop w (total + c - t) ts cs

/-- TA-Lib `SMA` on a Close series, including `TA_SMA`'s parameter check: the
`optInTimePeriod` argument must lie in the range [2, 100000], otherwise TA-Lib reports
TA_BAD_PARAM and the Python binding raises (modelled by `none`).  For a valid period the
output is a lookback of `w - 1` leading NaNs followed by the running-total loop seeded
with the sum of the first `w - 1` values. -/
def taSMA (close : List ℚ) (w : ℕ) : Option (List (Option ℚ)) :=
  if w < 2 ∨ 100000 < w then none
  else some (List.replicate (min (w - 1) close.length) none ++
    (taSMA_loop w ((close.take (w - 1)).sum) close (close.drop (w - 1))).map some)

/-- Embedding of `TechnicalIndicators.compute_sma(data, window)`: an empty input yields
an empty series without calling TA-Lib, otherwise the result of the TA-Lib SMA call on
the Close column (`none` when the call raises). -/
def compute_sma (close : List ℚ) (w : ℕ) : Option (List (Option ℚ)) :=
  if close = [] then some [] else taSMA close w

/-- Reference simple moving average following the specification words: at each position
`i ≥ w - 1` the mean of the `w` most recent Close values ending at `i`, and NaN at
positions before `w - 1`. -/
def smaSpec (close : List ℚ) (w : ℕ) : List (Option ℚ) :=
  (List.range close.length).map fun i =>
    if i + 1 < w then none
    else some (((close.drop (i + 1 - w)).take w).sum / (w : ℚ))

/-- Every value returned by `bisect` on a sign-changing bracket sits inside a
sub-bracket of width at most `tol` on which the function still changes sign. -/
theorem bisect_mem (f : ℚ → ℚ) (tol : ℚ) (htol : 0 ≤ tol) :
    ∀ (n : ℕ) (a b v : ℚ), a ≤ b → f a * f b ≤ 0 → bisect f tol a b n = some v →
      ∃ x y, a ≤ x ∧ x ≤ v ∧ v ≤ y ∧ y ≤ b ∧ y - x ≤ tol ∧ f x * f y ≤ 0 := by
  intro n
  induction n with
  | zero =>
    intro a b v _ _ h
    simp [bisect] at h
  | succ n ih =>
    intro a b v hab hsign h
    rw [bisect] at h
    by_cases ha : f a = 0
    · rw [if_pos ha] at h
      injection h with h
      subst h
      exact ⟨a, a, le_refl a, le_refl a, le_refl a, hab, by linarith, by rw [ha]; simp⟩
    rw [if_neg ha] at h
    by_cases hb : f b = 0
    · rw [if_pos hb] at h
      injection h with h
      subst h
      exact ⟨b, b, hab, le_refl b, le_refl b, le_refl b, by linarith, by rw [hb]; simp⟩
    rw [if_neg hb] at h
    by_cases hw : b - a ≤ tol
    · rw [if_pos hw] at h
      injection h with h
      subst h
      exact ⟨a, b, le_refl a, by linarith, by linarith, le_refl b, hw, hsign⟩
    rw [if_neg hw] at h
    by_cases hm : f a * f ((a + b) / 2) < 0
    · rw [if_pos hm] at h
      obtain ⟨x, y, hx, hxv, hvy, hyb, hyx, hsgn⟩ :=
        ih a ((a + b) / 2) v (by linarith) (le_of_lt hm) h
      exact ⟨x, y, hx, hxv, hvy, by linarith, hyx, hsgn⟩
    · rw [if_neg hm] at h
      have hab2 : f a * f b < 0 := lt_of_le_of_ne hsign (mul_ne_zero ha hb)
      have hm2 : 0 ≤ f a * f ((a + b) / 2) := not_lt.mp hm
      have hmb : f ((a + b) / 2) * f b ≤ 0 := by
        by_cases hm0 : f ((a + b) / 2) = 0
        · rw [hm0, zero_mul]
        · nlinarith [mul_self_pos.mpr ha, mul_self_pos.mpr hm0]
      obtain ⟨x, y, hx, hxv, hvy, hyb, hyx, hsgn⟩ :=
        ih ((a + b) / 2) b v (by linarith) hmb h
      exact ⟨x, y, by linarith, hxv, hvy, hyb, hyx, hsgn⟩

/-- C3.  Whatever root finder is plugged in, a NaN market price, a non-positive market
price, or a market price at most the intrinsic value plus `1e-12` makes
`implied_volatility_from_price` return NaN without invoking the root finder. -/
theorem implied_vol_guard_returns_nan
    (rf : (ℚ → ℚ) → ℚ → ℚ → Option ℚ) (e l s Φ : ℚ → ℚ)
    (market_price : Option ℚ) (S K T r : ℚ) (ot : OptionSide)
    (h : market_price = none ∨
      ∃ p, market_price = some p ∧
        (p ≤ 0 ∨ p ≤ intrinsic_value S K ot + 1 / 1000000000000)) :
    implied_volatility_from_price_gen rf e l s Φ market_price S K T r ot = none := by
  rcases h with h | ⟨p, hp, hcase⟩
  · subst h
    rfl
  · subst hp
    rcases hcase with h0 | hintr
    · simp only [implied_volatility_from_price_gen]
      rw [if_pos h0]
    · by_cases h0 : p ≤ 0
      · simp only [implied_volatility_from_price_gen]
        rw [if_pos h0]
      · simp only [implied_volatility_from_price_gen]
        rw [if_neg h0, if_pos hintr]

/-- Witness for C3: a market price of -1 (non-positive) yields NaN even when the root
finder would return a value. -/
theorem implied_vol_guard_returns_nan_witness :
    implied_volatility_from_price_gen (fun _ _ _ => some 99) (fun _ => 1) (fun _ => 0)
      (fun _ => 1) id (some (-1)) 100 90 1 0 call = none :=
  implied_vol_guard_returns_nan (fun _ _ _ => some 99) (fun _ => 1) (fun _ => 0)
    (fun _ => 1) id (some (-1)) 100 90 1 0 call (Or.inr ⟨-1, rfl, Or.inl (by norm_num)⟩)

/-- C2.  `implied_volatility_from_price` brackets the objective on `[1e-6, 5]`: if the
objective has the same (strict) sign at both endpoints the result is NaN, and every
non-NaN result is a volatility in `[1e-6, 5]` lying in a sub-bracket of width at most
`tol` on which the objective (Black-Scholes price minus market price) changes sign. -/
theorem implied_vol_bracketing
    (e l s Φ : ℚ → ℚ) (market_price : Option ℚ) (S K T r tol : ℚ) (ot : OptionSide)
    (max_iter : ℕ) (htol : 0 ≤ tol) :
    (∀ p, market_price = some p →
        0 < iv_objective e l s Φ S K T r p ot (1 / 1000000) *
          iv_objective e l s Φ S K T r p ot 5 →
        implied_volatility_from_price e l s Φ market_price S K T r ot tol max_iter
          = none) ∧
    (∀ v, implied_volatility_from_price e l s Φ market_price S K T r ot tol max_iter
          = some v →
        1 / 1000000 ≤ v ∧ v ≤ 5 ∧
        ∃ p, market_price = some p ∧
          ∃ x y, 1 / 1000000 ≤ x ∧ x ≤ v ∧ v ≤ y ∧ y ≤ 5 ∧ y - x ≤ tol ∧
            iv_objective e l s Φ S K T r p ot x *
              iv_objective e l s Φ S K T r p ot y ≤ 0) := by
  constructor
  · intro p hp hpos
    subst hp
    simp only [implied_volatility_from_price, implied_volatility_from_price_gen]
    by_cases h1 : p ≤ 0
    · rw [if_pos h1]
    rw [if_neg h1]
    by_cases h2 : p ≤ intrinsic_value S K ot + 1 / 1000000000000
    · rw [if_pos h2]
    rw [if_neg h2, if_pos hpos]
  · intro v hv
    cases market_price with
    | none =>
      simp only [implied_volatility_from_price, implied_volatility_from_price_gen] at hv
      exact Option.noConfusion hv
    | some p =>
      simp only [implied_volatility_from_price, implied_volatility_from_price_gen] at hv
      by_cases h1 : p ≤ 0
      · rw [if_pos h1] at hv
        exact Option.noConfusion hv
      rw [if_neg h1] at hv
      by_cases h2 : p ≤ intrinsic_value S K ot + 1 / 1000000000000
      · rw [if_pos h2] at hv
        exact Option.noConfusion hv
      rw [if_neg h2] at hv
      by_cases h3 : iv_objective e l s Φ S K T r p ot (1 / 1000000) *
          iv_objective e l s Φ S K T r p ot 5 > 0
      · rw [if_pos h3] at hv
        exact Option.noConfusion hv
      rw [if_neg h3] at hv
      have hsign : iv_objective e l s Φ S K T r p ot (1 / 1000000) *
          iv_objective e l s Φ S K T r p ot 5 ≤ 0 := not_lt.mp h3
      obtain ⟨x, y, hx, hxv, hvy, hyb, hyx, hsgn⟩ :=
        bisect_mem (iv_objective e l s Φ S K T r p ot) tol htol max_iter
          (1 / 1000000) 5 v (by norm_num) hsign hv
      exact ⟨le_trans hx hxv, le_trans hvy hyb, p, rfl,
        x, y, hx, hxv, hvy, hyb, hyx, hsgn⟩

/-- Witness for C2 at concrete constant library functions, under which the call-branch
Black-Scholes price at volatility `sig` is `sig` itself.  A market price of 10 makes the
objective strictly negative at both bracket endpoints, and the same-sign clause of the
theorem yields NaN; a market price of 1 changes sign across the bracket, the solver
returns the concrete volatility `(1/1000000 + 5)/2`, and the non-NaN clause of the
theorem places it in a sign-changing sub-bracket of width at most the tolerance 5. -/
theorem implied_vol_bracketing_witness :
    implied_volatility_from_price (fun _ => 1) (fun _ => 0) (fun _ => 1) id (some 10)
        1 1 1 0 call 1 5 = none ∧
      (1 / 1000000 ≤ ((1 / 1000000 + 5) / 2 : ℚ) ∧ ((1 / 1000000 + 5) / 2 : ℚ) ≤ 5 ∧
        ∃ p, (some 1 : Option ℚ) = some p ∧
          ∃ x y, 1 / 1000000 ≤ x ∧ x ≤ ((1 / 1000000 + 5) / 2 : ℚ) ∧
            ((1 / 1000000 + 5) / 2 : ℚ) ≤ y ∧ y ≤ 5 ∧ y - x ≤ (5 : ℚ) ∧
            iv_objective (fun _ => 1) (fun _ => 0) (fun _ => 1) id 1 1 1 0 p call x *
              iv_objective (fun _ => 1) (fun _ => 0) (fun _ => 1) id 1 1 1 0 p call y
              ≤ 0) :=
  ⟨(implied_vol_bracketing (fun _ => 1) (fun _ => 0) (fun _ => 1) id (some 10)
      1 1 1 0 1 call 5 (by norm_num)).1 10 rfl
      (by norm_num [iv_objective, bs_price]),
    (implied_vol_bracketing (fun _ => 1) (fun _ => 0) (fun _ => 1) id (some 1)
      1 1 1 0 5 call 1 (by norm_num)).2 ((1 / 1000000 + 5) / 2)
      (by norm_num [implied_volatility_from_price, implied_volatility_from_price_gen,
        intrinsic_value, iv_objective, bs_price, bisect])⟩

/-- Python values as compared by the pandas `in` operator on a column index inside
`TechnicalIndicators.compute_bollinger_percent_b`: the column labels are strings, while
the literal `['Close']` tested by the source is a list of strings. -/
inductive PyLabel
  | str : String → PyLabel
  | strList : List String → PyLabel
deriving DecidableEq

/-- Membership test `x in df.columns` for a frame with string column labels: the operand
is compared for equality against each label. -/
def pyLabelIn (x : PyLabel) (cols : List String) : Prop :=
  ∃ c ∈ cols, x = PyLabel.str c

instance (x : PyLabel) (cols : List String) : Decidable (pyLabelIn x cols) :=
  List.decidableBEx _ cols

/-- Minimal model of a pandas DataFrame: its column labels (strings) and the numeric
contents of each column. -/
structure PyDataFrame where
  cols : List String
  data : String → List ℚ

/-- Embedding of `TechnicalIndicators.compute_bollinger_percent_b(market_data,
bollinger_data)`: the loop over `['bb_upper', 'bb_lower']` returns `bollinger_data` when
one of them is missing, the source then tests `['Close'] not in market_data.columns`
(membership of the list literal itself), and only past that guard builds the
`bb_percent_b` frame `(Close - bb_lower) / (bb_upper - bb_lower)`. -/
def compute_bollinger_percent_b (market_data bollinger_data : PyDataFrame) :
    PyDataFrame :=
  if "bb_upper" ∉ bollinger_data.cols then bollinger_data
  else if "bb_lower" ∉ bollinger_data.cols then bollinger_data
  else if ¬ pyLabelIn (PyLabel.strList ["Close"]) market_data.cols then market_data
  else
    { cols := ["bb_percent_b"]
      data := fun c =>
        if c = "bb_percent_b" then
          List.zipWith (fun num den => num / den)
            (List.zipWith (fun cl lo => cl - lo) (market_data.data "Close")
              (bollinger_data.data "bb_lower"))
            (List.zipWith (fun up lo => up - lo) (bollinger_data.data "bb_upper")
              (bollinger_data.data "bb_lower"))
        else [] }

/-- Mean of a list of rationals, modelling pandas `mean`. -/
def listMean (l : List ℚ) : ℚ := l.sum / (l.length : ℚ)

/-- Per-expiry mean of the `impliedVolatility` column, modelling
`df.groupby('expiry')['impliedVolatility'].mean()`: one entry per distinct expiry, whose
value is the mean of that group's implied volatilities. -/
def groupMeanIV (rows : List (String × ℚ)) : List (String × ℚ) :=
  ((rows.map Prod.fst).dedup).map fun k =>
    (k, listMean ((rows.filter fun row => row.1 == k).map Prod.snd))

/-- Embedding of `OptionsAnalyzer.calculate_iv_term_structure(options_df, agg)`
restricted to the aggregated IV series and the name of the aggregate column.  Rows are
(expiry, impliedVolatility) pairs.  The source computes
`grp.mean() if agg == 'median' else grp.mean()` and names the column `IV_{agg}`; the
empty-input branch returns an empty frame, modelled as `([], "")`. -/
def calculate_iv_term_structure (rows : List (String × ℚ)) (agg : String) :
    List (String × ℚ) × String :=
  if rows = [] then ([], "")
  else
    let iv_series := if agg = "median" then groupMeanIV rows else groupMeanIV rows
    (iv_series, "IV_" ++ agg)

/-- One row of the options frame consumed by `compute_implied_vols`; NaN-able cells are
`Option ℚ`, and the expiry is modelled by its signed distance in days from today
(`pd.to_datetime(df['expiry']) - pd.Timestamp.today()`). -/
structure OptionRow where
  bid : Option ℚ
  ask : Option ℚ
  mid : Option ℚ
  lastPrice : Option ℚ
  strike : ℚ
  expiryDays : ℤ
  optType : String
deriving DecidableEq

/-- One row of the frame returned by `compute_implied_vols`: the copied row with its
`mid` recomputed, plus the derived `time_to_expiry` and `impliedVolatility` columns. -/
structure OptionRowOut where
  base : OptionRow
  time_to_expiry : ℚ
  impliedVolatility : Option ℚ

/-- Embedding of `OptionsAnalyzer.compute_implied_vols(self, options_df, spot_price)`.
The body works on `df = options_df.copy()`; the second component of the result is the
caller's frame after the call, which the copy leaves untouched.  Per row, `mid` becomes
`(bid + ask)/2` when `mid` and `ask` are non-NaN and `lastPrice` otherwise,
`time_to_expiry` is the expiry distance in days over 365.25 clamped below at 0, and
`impliedVolatility` is the Black-Scholes inversion at the row's strike, with the row
treated as a call exactly when its `Type` is `'calls'`. -/
def compute_implied_vols (e l s Φ : ℚ → ℚ) (tol : ℚ) (max_iter : ℕ) (r : ℚ)
    (options_df : List OptionRow) (spot_price : ℚ) :
    List OptionRowOut × List OptionRow :=
  if options_df = [] then ([], options_df)
  else
    let df := options_df.map fun row =>
      { row with mid := if row.mid.isSome ∧ row.ask.isSome
          then Option.map₂ (fun b a => (b + a) / 2) row.bid row.ask
          else row.lastPrice }
    let out := df.map fun row =>
      let tte0 := (row.expiryDays : ℚ) / (36525 / 100)
      let tte := if tte0 < 0 then 0 else tte0
      { base := row
        time_to_expiry := tte
        impliedVolatility :=
          implied_volatility_from_price e l s Φ row.mid spot_price row.strike tte r
            (if row.optType = "calls" then call else put) tol max_iter }
    (out, options_df)

/-- One output row of `calculate_returns`: the copied Close value and the derived
columns, with NaN cells as `Option ℚ`. -/
structure StatsRow where
  close : ℚ
  returns_w : List (Option ℚ)
  returns_1d : Option ℚ
  log_returns : Option ℚ
  volatility : Option ℚ
  volatility_log : Option ℚ

/-- pandas `Series.pct_change(periods=w)` on a Close column. -/
def pct_change (close : List ℚ) (w : ℕ) : List (Option ℚ) :=
  (List.range close.length).map fun i =>
    if i < w then none else some (close.getD i 0 / close.getD (i - w) 0 - 1)

/-- pandas `Series.rolling(window).std()`: sample standard deviation (ddof = 1) of the
window ending at each position, NaN until the window holds `window` non-NaN values; `s`
models the square root. -/
def rollingStd (s : ℚ → ℚ) (w : ℕ) (xs : List (Option ℚ)) : List (Option ℚ) :=
  (List.range xs.length).map fun i =>
    if i + 1 < w then none
    else
      let win := (xs.drop (i + 1 - w)).take w
      if win.all Option.isSome then
        let vals := win.filterMap id
        let m := vals.sum / (w : ℚ)
        some (s ((vals.map fun x => (x - m) ^ 2).sum / ((w : ℚ) - 1)))
      else none

/-- Embedding of `StatsAnalysis.calculate_returns(data, rolling_window, windows)`
restricted to the Close column and the columns derived from it.  The body works on
`stats_data = data.copy()`; the second component of the result is the caller's column
after the call.  The final `dropna()` keeps the rows in which every derived column is
non-NaN. -/
def calculate_returns (l s : ℚ → ℚ) (data : List ℚ) (rolling_window : ℕ)
    (windows : List ℕ) : List StatsRow × List ℚ :=
  if data = [] then ([], data)
  else
    let returns_1d := pct_change data 1
    let log_returns := (List.range data.length).map fun i =>
      if i = 0 then none else some (l (data.getD i 0 / data.getD (i - 1) 0))
    let volatility := rollingStd s rolling_window returns_1d
    let volatility_log := rollingStd s rolling_window log_returns
    let rows : List StatsRow := (List.range data.length).map fun i =>
      { close := data.getD i 0
        returns_w := windows.map fun w => (pct_change data w).getD i none
        returns_1d := returns_1d.getD i none
        log_returns := log_returns.getD i none
        volatility := volatility.getD i none
        volatility_log := volatility_log.getD i none }
    (rows.filter fun row => row.returns_w.all Option.isSome && row.returns_1d.isSome
        && row.log_returns.isSome && row.volatility.isSome && row.volatility_log.isSome,
      data)

/-- Running cumulative sum with accumulator, modelling the pandas `cumsum` calls in
`StatsAnalysis.calculate_vwap`. -/
def cumsum (acc : ℚ) : List ℚ → List ℚ
  | [] => []
  | x :: xs => (acc + x) :: cumsum (acc + x) xs

/-- Embedding of `StatsAnalysis.calculate_vwap` restricted to the `vwap` column it
returns: the typical price is `(High + Low + Close) / 3`, `cum_vol` is the cumulative
volume, `cum_vol_price` the cumulative typical-price-times-volume, and `vwap` their
elementwise quotient.  (The empty-data guard of the source returns an empty frame, which
coincides with the value of this definition on empty columns.) -/
def calculate_vwap (high low close volume : List ℚ) : List ℚ :=
  let typical_price := List.zipWith (fun hl c => (hl + c) / 3)
    (List.zipWith (fun h lo => h + lo) high low) close
  let cum_vol := cumsum 0 volume
  let cum_vol_price := cumsum 0 (List.zipWith (fun t v => t * v) typical_price volume)
  List.zipWith (fun p v => p / v) cum_vol_price cum_vol

/-- The TA-Lib running-total loop computes the direct windowed means. -/
theorem taSMA_loop_eq (w : ℕ) :
    ∀ t : List ℚ, taSMA_loop w ((t.take (w - 1)).sum) t (t.drop (w - 1)) =
      (List.range (t.length - (w - 1))).map
        fun j => (((t.drop j).take w).sum / (w : ℚ)) := by
  intro t
  induction t with
  | nil => simp [taSMA_loop]
  | cons x xs ih =>
    cases hk : w - 1 with
    | zero =>
      rw [hk] at ih
      simp only [List.take_zero, List.sum_nil, List.drop_zero, Nat.sub_zero] at ih ⊢
      simp only [taSMA_loop, List.length_cons]
      rw [List.range_succ_eq_map, List.map_cons, List.map_map]
      have hx : (0 : ℚ) + x - x = 0 := by ring
      rw [hx, ih, List.cons.injEq]
      constructor
      · have hw2 : w = 0 ∨ w = 1 := by omega
        rcases hw2 with hw2 | hw2 <;> subst hw2 <;> simp
      · exact List.map_congr_left fun a _ => rfl
    | succ m =>
      rw [hk] at ih
      simp only [List.take_succ_cons, List.drop_succ_cons, List.sum_cons, List.length_cons]
      rcases hd : xs.drop m with _ | ⟨c, cs⟩
      · have hlen : xs.length ≤ m := by
          have := congrArg List.length hd
          simp [List.length_drop] at this
          omega
        have h0 : xs.length + 1 - (m + 1) = 0 := by omega
        simp [taSMA_loop, h0]
      · have hmlt : m < xs.length := by
          have := congrArg List.length hd
          simp [List.length_drop] at this
          omega
        have hc : xs[m]? = some c := by
          have h1 := List.getElem?_drop xs m 0
          rw [hd] at h1
          simpa using h1.symm
        have hcs : cs = xs.drop (m + 1) := by
          have h1 : (xs.drop m).tail = xs.drop (m + 1) := List.tail_drop xs m
          rw [hd] at h1
          simpa using h1
        have hsum : (xs.take (m + 1)).sum = (xs.take m).sum + c := by
          rw [List.take_succ, hc]
          simp
        simp only [taSMA_loop]
        have htot : x + (xs.take m).sum + c - x = (xs.take (m + 1)).sum := by
          rw [hsum]; ring
        rw [htot, hcs, ih]
        have hlen1 : xs.length + 1 - (m + 1) = (xs.length - (m + 1)) + 1 := by omega
        rw [hlen1, List.range_succ_eq_map, List.map_cons, List.map_map, List.cons.injEq]
        constructor
        · have hwm : w = m + 2 := by omega
          subst hwm
          simp only [List.drop_zero, List.take_succ_cons, List.sum_cons, hsum]
          ring
        · exact List.map_congr_left fun a _ => rfl

/-- C6 counterexample.  At window 1 — inside the claimed range `w ≥ 1` — the TA-Lib call
rejects its time period (TA_BAD_PARAM) and raises instead of returning the reference
moving average of the non-empty series [1]. -/
theorem compute_sma_window_one_raises :
    compute_sma [1] 1 = none ∧ compute_sma [1] 1 ≠ some (smaSpec [1] 1) := by
  constructor
  · rfl
  · intro h
    exact Option.noConfusion (h.symm.trans (rfl : compute_sma [1] 1 = none))

/-- C6 (amended).  On a non-empty Close series and window `w` inside TA-Lib's valid
range [2, 100000], `compute_sma` (the TA-Lib SMA call) returns the reference simple
moving average `smaSpec`: NaN before position `w - 1` and the mean of the `w` most
recent values at every later position. -/
theorem compute_sma_eq_smaSpec (close : List ℚ) (w : ℕ) (hne : close ≠ []) (hw : 2 ≤ w)
    (hub : w ≤ 100000) :
    compute_sma close w = some (smaSpec close w) := by
  rw [compute_sma, if_neg hne, taSMA, if_neg (by omega)]
  refine congrArg some ?_
  apply List.ext_getElem?
  intro n
  simp only [taSMA_loop_eq w close, smaSpec, List.map_map, List.getElem?_append,
    List.length_replicate, List.getElem?_replicate, List.getElem?_map]
  by_cases h2 : n < close.length
  · rw [List.getElem?_range h2]
    by_cases h1 : n < w - 1
    · have hmin : n < min (w - 1) close.length := by omega
      have hn1 : n + 1 < w := by omega
      rw [if_pos hmin, if_pos hmin]
      simp [hn1]
    · have hmin : ¬ n < min (w - 1) close.length := by omega
      have hminv : min (w - 1) close.length = w - 1 := by omega
      have hidx : n - (w - 1) < close.length - (w - 1) := by omega
      have hn1 : ¬ n + 1 < w := by omega
      have heq : n + 1 - w = n - (w - 1) := by omega
      rw [if_neg hmin, hminv, List.getElem?_range hidx]
      simp [hn1, heq, Function.comp]
  · have hmin : ¬ n < min (w - 1) close.length := by omega
    have hr1 : (List.range close.length)[n]? = none :=
      List.getElem?_eq_none (by simpa using not_lt.mp h2)
    have hr2 : (List.range (close.length - (w - 1)))[n - min (w - 1) close.length]? = none :=
      List.getElem?_eq_none (by simp; omega)
    rw [if_neg hmin, hr1, hr2]
    rfl

/-- Element `i` of a running cumulative sum is the accumulator plus the sum of the first
`i + 1` values. -/
theorem cumsum_getElem? (xs : List ℚ) :
    ∀ (acc : ℚ) (i : ℕ), i < xs.length →
      (cumsum acc xs)[i]? = some (acc + (xs.take (i + 1)).sum) := by
  induction xs with
  | nil =>
    intro acc i h
    simp at h
  | cons x xs ih =>
    intro acc i h
    cases i with
    | zero => simp [cumsum]
    | succ j =>
      simp only [cumsum, List.getElem?_cons_succ]
      rw [ih (acc + x) j (by simpa using h)]
      congr 1
      rw [List.take_succ_cons, List.sum_cons]
      ring

/-- Sum of a prefix written as a sum over explicit indices. -/
theorem take_sum_eq_range_sum (xs : List ℚ) :
    ∀ n, n ≤ xs.length →
      (xs.take n).sum = ((List.range n).map fun j => xs.getD j 0).sum := by
  intro n
  induction n with
  | zero => simp
  | succ k ih =>
    intro h
    have hk : k < xs.length := by omega
    rw [List.take_succ, List.sum_append, List.range_succ, List.map_append, List.sum_append,
      ih (by omega)]
    simp [List.getElem?_eq_getElem hk, List.getD_eq_getElem?_getD]

/-- `getD` on a `zipWith` at a valid index is the function of the two `getD`s. -/
theorem zipWith_getD (f : ℚ → ℚ → ℚ) (as bs : List ℚ) (j : ℕ)
    (ha : j < as.length) (hb : j < bs.length) :
    (List.zipWith f as bs).getD j 0 = f (as.getD j 0) (bs.getD j 0) := by
  simp [List.getD_eq_getElem?_getD, List.getElem?_zipWith,
    List.getElem?_eq_getElem ha, List.getElem?_eq_getElem hb]

/-- C7.  Row `i` of the `vwap` column of `calculate_vwap` is the cumulative
volume-weighted average of the typical price: the sum over `j ≤ i` of
`((High_j + Low_j + Close_j)/3) * Volume_j` divided by the sum over `j ≤ i` of
`Volume_j`. -/
theorem calculate_vwap_correct (high low close volume : List ℚ)
    (hlo : low.length = high.length) (hcl : close.length = high.length)
    (hvo : volume.length = high.length) (i : ℕ) (hi : i < high.length) :
    (calculate_vwap high low close volume)[i]? =
      some ((((List.range (i + 1)).map fun j =>
          ((high.getD j 0 + low.getD j 0 + close.getD j 0) / 3) * volume.getD j 0).sum) /
        (((List.range (i + 1)).map fun j => volume.getD j 0).sum)) := by
  have htp : (List.zipWith (fun hl c => (hl + c) / 3)
      (List.zipWith (fun h lo => h + lo) high low) close).length = high.length := by
    simp [List.length_zipWith, hlo, hcl]
  have hprod : (List.zipWith (fun t v => t * v)
      (List.zipWith (fun hl c => (hl + c) / 3)
        (List.zipWith (fun h lo => h + lo) high low) close) volume).length = high.length := by
    simp [List.length_zipWith, htp, hlo, hcl, hvo]
  rw [calculate_vwap]
  simp only [List.getElem?_zipWith]
  rw [cumsum_getElem? _ 0 i (by omega), cumsum_getElem? _ 0 i (by omega)]
  simp only [zero_add]
  rw [take_sum_eq_range_sum _ (i + 1) (by omega),
    take_sum_eq_range_sum volume (i + 1) (by omega)]
  congr 2
  refine congrArg List.sum ?_
  apply List.map_congr_left
  intro j hj
  have hji : j < i + 1 := List.mem_range.mp hj
  rw [zipWith_getD _ _ _ j (by rw [htp]; omega) (by rw [hvo]; omega),
    zipWith_getD _ _ _ j (by simp only [List.length_zipWith, hlo, min_self]; omega)
      (by rw [hcl]; omega),
    zipWith_getD _ _ _ j (by omega) (by rw [hlo]; omega)]

/-- Witness for C7 on a two-row frame at row 1. -/
theorem calculate_vwap_correct_witness :
    ([2, 4] : List ℚ).length = ([1, 3] : List ℚ).length ∧ (1 : ℕ) < ([1, 3] : List ℚ).length ∧
      (calculate_vwap [1, 3] [2, 4] [3, 5] [10, 20])[1]? =
        some ((((List.range 2).map fun j =>
            ((([1, 3] : List ℚ).getD j 0 + ([2, 4] : List ℚ).getD j 0 +
              ([3, 5] : List ℚ).getD j 0) / 3) * ([10, 20] : List ℚ).getD j 0).sum) /
          (((List.range 2).map fun j => ([10, 20] : List ℚ).getD j 0).sum)) :=
  ⟨rfl, by norm_num,
    calculate_vwap_correct [1, 3] [2, 4] [3, 5] [10, 20] rfl rfl rfl 1 (by norm_num)⟩

/-- Witness for C6 on the series [1, 2, 3] with window 2. -/
theorem compute_sma_eq_smaSpec_witness :
    ([1, 2, 3] : List ℚ) ≠ [] ∧ 2 ≤ 2 ∧ 2 ≤ 100000 ∧
      compute_sma [1, 2, 3] 2 = some (smaSpec [1, 2, 3] 2) :=
  ⟨by simp, by norm_num, by norm_num,
    compute_sma_eq_smaSpec [1, 2, 3] 2 (by simp) (by norm_num) (by norm_num)⟩

/-- C8.  Whenever the Bollinger frame has both `bb_upper` and `bb_lower` columns,
`compute_bollinger_percent_b` returns `market_data` unchanged and never adds a
`bb_percent_b` column: the test `['Close'] not in market_data.columns` holds for every
frame, because a list is never equal to a string column label, so the computation branch
is unreachable. -/
theorem compute_bollinger_percent_b_unreachable (market_data bollinger_data : PyDataFrame)
    (hu : "bb_upper" ∈ bollinger_data.cols) (hl : "bb_lower" ∈ bollinger_data.cols) :
    compute_bollinger_percent_b market_data bollinger_data = market_data ∧
      ("bb_percent_b" ∉ market_data.cols →
        "bb_percent_b" ∉ (compute_bollinger_percent_b market_data bollinger_data).cols) := by
  have hnot : ¬ pyLabelIn (PyLabel.strList ["Close"]) market_data.cols := by
    rintro ⟨c, _, hce⟩
    exact PyLabel.noConfusion hce
  have heq : compute_bollinger_percent_b market_data bollinger_data = market_data := by
    rw [compute_bollinger_percent_b, if_neg (not_not_intro hu),
      if_neg (not_not_intro hl), if_pos hnot]
  exact ⟨heq, fun h => by rw [heq]; exact h⟩

/-- Witness for C8 on a market frame with a Close column and a Bollinger frame with
both band columns. -/
theorem compute_bollinger_percent_b_unreachable_witness :
    "bb_upper" ∈ (["bb_upper", "bb_lower"] : List String) ∧
    "bb_lower" ∈ (["bb_upper", "bb_lower"] : List String) ∧
      (compute_bollinger_percent_b ⟨["Close"], fun _ => [1]⟩
          ⟨["bb_upper", "bb_lower"], fun _ => [2]⟩ =
        (⟨["Close"], fun _ => [1]⟩ : PyDataFrame) ∧
        ("bb_percent_b" ∉ (⟨["Close"], fun _ => [1]⟩ : PyDataFrame).cols →
          "bb_percent_b" ∉ (compute_bollinger_percent_b ⟨["Close"], fun _ => [1]⟩
            ⟨["bb_upper", "bb_lower"], fun _ => [2]⟩).cols)) :=
  ⟨by simp, by simp,
    compute_bollinger_percent_b_unreachable ⟨["Close"], fun _ => [1]⟩
      ⟨["bb_upper", "bb_lower"], fun _ => [2]⟩ (by simp) (by simp)⟩

/-- C9.  On a non-empty options frame, the aggregated IV values of
`calculate_iv_term_structure` are the per-expiry mean of `impliedVolatility` whatever
the `agg` argument: the `'median'` call and the `'mean'` call produce identical value
series and differ only in the output column name (`IV_median` versus `IV_mean`). -/
theorem iv_term_structure_median_is_mean (rows : List (String × ℚ)) (hne : rows ≠ []) :
    (calculate_iv_term_structure rows "median").1 =
        (calculate_iv_term_structure rows "mean").1 ∧
      (∀ entry ∈ (calculate_iv_term_structure rows "median").1,
        entry.2 = listMean ((rows.filter fun row => row.1 == entry.1).map Prod.snd)) ∧
      (calculate_iv_term_structure rows "median").2 = "IV_median" ∧
      (calculate_iv_term_structure rows "mean").2 = "IV_mean" := by
  refine ⟨by simp [calculate_iv_term_structure, hne], ?_,
    by simp [calculate_iv_term_structure, hne], by simp [calculate_iv_term_structure, hne]⟩
  intro entry he
  simp only [calculate_iv_term_structure, if_neg hne, ite_self] at he
  simp only [groupMeanIV, List.mem_map] at he
  obtain ⟨k, _, hke⟩ := he
  rw [← hke]

/-- Witness for C9 on the one-row frame [("x", 1)]. -/
theorem iv_term_structure_median_is_mean_witness :
    (calculate_iv_term_structure [("x", 1)] "median").1 =
        (calculate_iv_term_structure [("x", 1)] "mean").1 ∧
      (∀ entry ∈ (calculate_iv_term_structure [("x", 1)] "median").1,
        entry.2 = listMean ((([("x", 1)] : List (String × ℚ)).filter
          fun row => row.1 == entry.1).map Prod.snd)) ∧
      (calculate_iv_term_structure [("x", 1)] "median").2 = "IV_median" ∧
      (calculate_iv_term_structure [("x", 1)] "mean").2 = "IV_mean" :=
  iv_term_structure_median_is_mean [("x", 1)] (by simp)

/-- C10.  Neither `compute_implied_vols` nor `calculate_returns` mutates its input: both
work on a copy of the given frame, so the caller's data after each call is exactly the
data before it. -/
theorem compute_implied_vols_and_calculate_returns_pure
    (e l s Φ : ℚ → ℚ) (tol : ℚ) (max_iter : ℕ) (r : ℚ)
    (options_df : List OptionRow) (spot_price : ℚ)
    (data : List ℚ) (rolling_window : ℕ) (windows : List ℕ) :
    (compute_implied_vols e l s Φ tol max_iter r options_df spot_price).2 = options_df ∧
      (calculate_returns l s data rolling_window windows).2 = data := by
  constructor
  · rw [compute_implied_vols]
    split
    · rfl
    · rfl
  · rw [calculate_returns]
    split
    · rfl
    · rfl

end QuantPipeline
